import Mathlib

/-
A verification development for the parser-combinator engine of
aoclib (src/aoclib/parsing.py).

The embedding is shallow:

* Python strings are `List Char`, positions are `Nat` indices.
* Python parse-result values (strings, ints, tuples, lists, dicts of
  named regex groups, tagged pairs, and None) are the closed union
  `PResult`; the Python value `None` is `PResult.none`.
* A primitive parse function `parse_fn(s, i)` returns `RunOut`:
  `.ok r j` models the pair `(result, new_i)`, `.fail` models `None`,
  and `.raised` models an uncaught Python exception propagating out of
  the call (e.g. the TypeError raised by a zipconv elementwise
  converter applied to a non-tuple/list result).
* A `Parser` value mirrors the Python class structure exactly:
  `Parser.base` is a plain `Parser` instance (primitive function plus
  the conversions / trim_ws / tag settings), while `Parser.rawChain`
  and `Parser.rawFirst` are fresh `_ParserChain` / `_ParserFirstMatch`
  instances, whose settings are the defaults (no conversions, no trim,
  no tag) because `_ParserList.__init__` passes no kwargs.  Applying
  `_copy_with` to a composite returns a plain `Parser.base` (the
  "finalized" composite of the source comment), so it is no longer
  eligible for flattening, exactly as `isinstance(p, type(self))`
  behaves in the source.
* `star`'s unbounded `while` loop is given explicit fuel; running out
  of fuel is the distinguished outcome `StarOut.fuelOut`, which models
  nontermination of the Python loop and is never hit when the fuel
  exceeds the number of iterations the Python loop would perform.
-/

inductive PResult where
  | none
  | str (s : List Char)
  | intv (n : Int)
  | list (rs : List PResult)
  | tup (rs : List PResult)
  | dict (kvs : List (List Char × PResult))
  | tagged (t : PResult) (r : PResult)

mutual
def decEqP : (a b : PResult) → Decidable (a = b)
  | .none, .none => isTrue rfl
  | .str a, .str b =>
    match inferInstanceAs (Decidable (a = b)) with
    | isTrue h => isTrue (by rw [h])
    | isFalse h => isFalse (fun hh => by injection hh with h2; exact h h2)
  | .intv a, .intv b =>
    match inferInstanceAs (Decidable (a = b)) with
    | isTrue h => isTrue (by rw [h])
    | isFalse h => isFalse (fun hh => by injection hh with h2; exact h h2)
  | .list a, .list b =>
    match decEqPL a b with
    | isTrue h => isTrue (by rw [h])
    | isFalse h => isFalse (fun hh => by injection hh with h2; exact h h2)
  | .tup a, .tup b =>
    match decEqPL a b with
    | isTrue h => isTrue (by rw [h])
    | isFalse h => isFalse (fun hh => by injection hh with h2; exact h h2)
  | .dict a, .dict b =>
    match decEqPKV a b with
    | isTrue h => isTrue (by rw [h])
    | isFalse h => isFalse (fun hh => by injection hh with h2; exact h h2)
  | .tagged t r, .tagged u q =>
    match decEqP t u, decEqP r q with
    | isTrue h1, isTrue h2 => isTrue (by rw [h1, h2])
    | isFalse h1, _ => isFalse (fun hh => by injection hh with h2 h3; exact h1 h2)
    | _, isFalse h2 => isFalse (fun hh => by injection hh with h3 h4; exact h2 h4)
  | .none, .str _ => isFalse (fun h => PResult.noConfusion h)
  | .none, .intv _ => isFalse (fun h => PResult.noConfusion h)
  | .none, .list _ => isFalse (fun h => PResult.noConfusion h)
  | .none, .tup _ => isFalse (fun h => PResult.noConfusion h)
  | .none, .dict _ => isFalse (fun h => PResult.noConfusion h)
  | .none, .tagged _ _ => isFalse (fun h => PResult.noConfusion h)
  | .str _, .none => isFalse (fun h => PResult.noConfusion h)
  | .str _, .intv _ => isFalse (fun h => PResult.noConfusion h)
  | .str _, .list _ => isFalse (fun h => PResult.noConfusion h)
  | .str _, .tup _ => isFalse (fun h => PResult.noConfusion h)
  | .str _, .dict _ => isFalse (fun h => PResult.noConfusion h)
  | .str _, .tagged _ _ => isFalse (fun h => PResult.noConfusion h)
  | .intv _, .none => isFalse (fun h => PResult.noConfusion h)
  | .intv _, .str _ => isFalse (fun h => PResult.noConfusion h)
  | .intv _, .list _ => isFalse (fun h => PResult.noConfusion h)
  | .intv _, .tup _ => isFalse (fun h => PResult.noConfusion h)
  | .intv _, .dict _ => isFalse (fun h => PResult.noConfusion h)
  | .intv _, .tagged _ _ => isFalse (fun h => PResult.noConfusion h)
  | .list _, .none => isFalse (fun h => PResult.noConfusion h)
  | .list _, .str _ => isFalse (fun h => PResult.noConfusion h)
  | .list _, .intv _ => isFalse (fun h => PResult.noConfusion h)
  | .list _, .tup _ => isFalse (fun h => PResult.noConfusion h)
  | .list _, .dict _ => isFalse (fun h => PResult.noConfusion h)
  | .list _, .tagged _ _ => isFalse (fun h => PResult.noConfusion h)
  | .tup _, .none => isFalse (fun h => PResult.noConfusion h)
  | .tup _, .str _ => isFalse (fun h => PResult.noConfusion h)
  | .tup _, .intv _ => isFalse (fun h => PResult.noConfusion h)
  | .tup _, .list _ => isFalse (fun h => PResult.noConfusion h)
  | .tup _, .dict _ => isFalse (fun h => PResult.noConfusion h)
  | .tup _, .tagged _ _ => isFalse (fun h => PResult.noConfusion h)
  | .dict _, .none => isFalse (fun h => PResult.noConfusion h)
  | .dict _, .str _ => isFalse (fun h => PResult.noConfusion h)
  | .dict _, .intv _ => isFalse (fun h => PResult.noConfusion h)
  | .dict _, .list _ => isFalse (fun h => PResult.noConfusion h)
  | .dict _, .tup _ => isFalse (fun h => PResult.noConfusion h)
  | .dict _, .tagged _ _ => isFalse (fun h => PResult.noConfusion h)
  | .tagged _ _, .none => isFalse (fun h => PResult.noConfusion h)
  | .tagged _ _, .str _ => isFalse (fun h => PResult.noConfusion h)
  | .tagged _ _, .intv _ => isFalse (fun h => PResult.noConfusion h)
  | .tagged _ _, .list _ => isFalse (fun h => PResult.noConfusion h)
  | .tagged _ _, .tup _ => isFalse (fun h => PResult.noConfusion h)
  | .tagged _ _, .dict _ => isFalse (fun h => PResult.noConfusion h)

def decEqPL : (a b : List PResult) → Decidable (a = b)
  | [], [] => isTrue rfl
  | [], _ :: _ => isFalse (fun h => by injection h)
  | _ :: _, [] => isFalse (fun h => by injection h)
  | a :: as, b :: bs =>
    match decEqP a b, decEqPL as bs with
    | isTrue h1, isTrue h2 => isTrue (by rw [h1, h2])
    | isFalse h1, _ => isFalse (fun hh => by injection hh with h2 h3; exact h1 h2)
    | _, isFalse h2 => isFalse (fun hh => by injection hh with h3 h4; exact h2 h4)

def decEqPKV : (a b : List (List Char × PResult)) → Decidable (a = b)
  | [], [] => isTrue rfl
  | [], _ :: _ => isFalse (fun h => by injection h)
  | _ :: _, [] => isFalse (fun h => by injection h)
  | (k, v) :: as, (l, w) :: bs =>
    match inferInstanceAs (Decidable (k = l)), decEqP v w, decEqPKV as bs with
    | isTrue h1, isTrue h2, isTrue h3 => isTrue (by rw [h1, h2, h3])
    | isFalse h1, _, _ =>
      isFalse (fun hh => by injection hh with h4 h5; injection h4 with h6 h7; exact h1 h6)
    | _, isFalse h2, _ =>
      isFalse (fun hh => by injection hh with h4 h5; injection h4 with h6 h7; exact h2 h7)
    | _, _, isFalse h3 =>
      isFalse (fun hh => by injection hh with h4 h5; exact h3 h5)
end

instance : DecidableEq PResult := decEqP

/-- Outcome of one primitive parse function or `Parser.run` call:
success with a result and the exclusive end of the consumed range,
failure (the Python `None` return), or a propagating exception. -/
inductive RunOut where
  | ok (r : PResult) (j : Nat)
  | fail
  | raised
  deriving DecidableEq

/-- Outcome of one conversion function from a parser pipeline: a plain
returned value, the private `__SKIP` sentinel, or a raised exception. -/
inductive ConvRes where
  | val (r : PResult)
  | skipR
  | raisedR

/-- A conversion step attached with `conv` and friends. -/
abbrev Conv := PResult → ConvRes

/-- Outcome of running a whole conversion pipeline. -/
inductive COut where
  | okC (r : PResult)
  | failC
  | raisedC
  deriving DecidableEq

/-- Outcome of the `_ParserChain.do_parse` loop. -/
inductive LOut where
  | okL (rs : List PResult) (j : Nat)
  | failL
  | raisedL
  deriving DecidableEq

/-- Outcome of `Parser.parse`: a result, no result (Python `None`), or a
propagating exception. -/
inductive POut where
  | res (r : PResult)
  | noRes
  | raisedP
  deriving DecidableEq

/-- Python `\s` on the characters that matter here (re module whitespace,
ASCII range). -/
def isPyWS (c : Char) : Bool :=
  c = ' ' || c = '\t' || c = '\n' || c = '\r' || c = '\x0b' || c = '\x0c'

/-- Length of the maximal whitespace run at the head of a list, i.e. the
number of characters `re.compile(r"\s*")` consumes. -/
def wsCount : List Char → Nat
  | [] => 0
  | c :: cs => if isPyWS c then wsCount cs + 1 else 0

/-- `__WS_PATT.match(s, i).end()`: the position after the maximal
whitespace run starting at `i`. -/
def skipWS (s : List Char) (i : Nat) : Nat :=
  i + wsCount (s.drop i)

/-- The filter `lambda z: z is not None` used by `_add_result`. -/
def notNoneB : PResult → Bool
  | .none => false
  | _ => true

/-- `_add_result(acc, sub_result)`: splice in lists (dropping their
`None` elements), drop a bare `None`, append anything else. -/
def addResult (acc : List PResult) (sub : PResult) : List PResult :=
  match sub with
  | .list rs => acc ++ rs.filter notNoneB
  | .none => acc
  | r => acc ++ [r]

/-- The conversion loop inside `Parser.run`: apply each function in
order; the `__SKIP` sentinel becomes `None` without failing, a plain
`None` return fails the parse, an exception propagates. -/
def applyConvs : List Conv → PResult → COut
  | [], r => .okC r
  | f :: fs, r =>
    match f r with
    | .skipR => applyConvs fs .none
    | .raisedR => .raisedC
    | .val .none => .failC
    | .val r2 => applyConvs fs r2

/-- Wrapping of the final result into a `_Tagged` pair when a tag is set. -/
def tagWrap : Option PResult → PResult → PResult
  | Option.none, r => r
  | some t, r => .tagged t r

/-- The post-processing half of `Parser.run`: given the primitive parse
function's outcome, apply the conversion pipeline, the tag, and the
trailing whitespace trim. -/
def pipeOut : RunOut → List Conv → Bool → Option PResult → List Char → RunOut
  | .fail, _, _, _, _ => .fail
  | .raised, _, _, _, _ => .raised
  | .ok r j, cs, tr, tg, s =>
    match applyConvs cs r with
    | .raisedC => .raised
    | .failC => .fail
    | .okC r2 => .ok (tagWrap tg r2) (if tr then skipWS s j else j)

/-- Package the chain loop's outcome as a parse outcome (the chain's
result is the accumulated list). -/
def listOut : LOut → RunOut
  | .okL rs j => .ok (.list rs) j
  | .failL => .fail
  | .raisedL => .raised

mutual
/-- The primitive parse function of a parser: either an arbitrary
function (atomic parsers, `star`, ...), or `partial(do_parse, parsers)`
of a `_ParserChain` / `_ParserFirstMatch`. -/
inductive PrimP where
  | fnP (f : List Char → Nat → RunOut)
  | chainP (ps : List Parser)
  | firstP (ps : List Parser)

/-- A Parser value.  `base` is a plain `Parser` instance with its four
slots; `rawChain` and `rawFirst` are freshly constructed
`_ParserChain` / `_ParserFirstMatch` instances, whose other slots hold
the defaults (no conversions, `trim_ws=False`, no tag) because
`_ParserList.__init__` passes no kwargs to `Parser.__init__`. -/
inductive Parser where
  | base (prim : PrimP) (convs : List Conv) (trim : Bool) (tg : Option PResult)
  | rawChain (ps : List Parser)
  | rawFirst (ps : List Parser)
end

/-- The `_parse_fn` slot. -/
def Parser.primOf : Parser → PrimP
  | .base prim _ _ _ => prim
  | .rawChain ps => .chainP ps
  | .rawFirst ps => .firstP ps

/-- The `_conversions` slot. -/
def Parser.convsOf : Parser → List Conv
  | .base _ cs _ _ => cs
  | _ => []

/-- The `_trim_ws` slot. -/
def Parser.trimOf : Parser → Bool
  | .base _ _ tr _ => tr
  | _ => false

/-- The `_tag` slot. -/
def Parser.tagOf : Parser → Option PResult
  | .base _ _ _ tg => tg
  | _ => Option.none

mutual
/-- `Parser.run(s, i)`: trim leading whitespace if enabled, call the
primitive parse function, then apply conversions, tag, and trailing
trim. -/
def Parser.run : Parser → List Char → Nat → RunOut
  | .base prim cs tr tg, s, i =>
      pipeOut (runPrim prim s (if tr then skipWS s i else i)) cs tr tg s
  | .rawChain ps, s, i => listOut (runChain ps s i [])
  | .rawFirst ps, s, i => runFirst ps s i

/-- Run a primitive parse function. -/
def runPrim : PrimP → List Char → Nat → RunOut
  | .fnP f, s, i => f s i
  | .chainP ps, s, i => listOut (runChain ps s i [])
  | .firstP ps, s, i => runFirst ps s i

/-- `_ParserChain.do_parse`: run the children left to right on an
advancing position, accumulating results with `_add_result`; any child
failing fails the whole chain. -/
def runChain : List Parser → List Char → Nat → List PResult → LOut
  | [], _, i, acc => .okL acc i
  | p :: ps, s, i, acc =>
      match Parser.run p s i with
      | .fail => .failL
      | .raised => .raisedL
      | .ok r ni => runChain ps s ni (addResult acc r)

/-- `_ParserFirstMatch.do_parse`: run the children left to right at the
same position and return the first non-`None` outcome. -/
def runFirst : List Parser → List Char → Nat → RunOut
  | [], _, _ => .fail
  | p :: ps, s, i =>
      match Parser.run p s i with
      | .fail => runFirst ps s i
      | out => out
end

/-- `Parser.parse(s)`: run from position 0 and require the end position
to equal the length of the input. -/
def Parser.parse (p : Parser) (s : List Char) : POut :=
  match p.run s 0 with
  | .raised => .raisedP
  | .fail => .noRes
  | .ok r j => if j ≠ s.length then .noRes else .res r

/-- `Parser._copy_with`: a plain `Parser` sharing the primitive
function, with the new conversions appended and the other settings
overridden when provided.  Returning `Parser.base` (never a composite
constructor) models the source's deliberate use of `Parser(...)` there,
which finalizes composites against further flattening. -/
def Parser.copy_with (p : Parser) (newConvs : List Conv) (newTrim : Option Bool)
    (newTag : Option (Option PResult)) : Parser :=
  .base p.primOf (p.convsOf ++ newConvs) (newTrim.getD p.trimOf) (newTag.getD p.tagOf)

/-- `Parser.conv(*fns)`. -/
def Parser.conv (p : Parser) (fns : List Conv) : Parser :=
  if fns.isEmpty then p else p.copy_with fns Option.none Option.none

/-- The `lambda _: val` conversion attached by `const`. -/
def constConv (v : PResult) : Conv := fun _ => .val v

/-- `Parser.const(val)`. -/
def Parser.const (p : Parser) (v : PResult) : Parser :=
  p.copy_with [constConv v] Option.none Option.none

/-- The `lambda _: self.__SKIP` conversion attached by `skip`. -/
def skipConv : Conv := fun _ => .skipR

/-- `Parser.skip()`: replace the result with the skip sentinel and clear
the tag. -/
def Parser.skip (p : Parser) : Parser :=
  p.copy_with [skipConv] Option.none (some Option.none)

/-- `Parser.trim_ws(enable)`. -/
def Parser.trim_ws (p : Parser) (enable : Bool) : Parser :=
  if p.trimOf = enable then p else p.copy_with [] (some enable) Option.none

/-- `Parser.tag(tag)` (a Python tag of `None` is `Option.none`). -/
def Parser.tag (p : Parser) (t : Option PResult) : Parser :=
  if p.tagOf = t then p else p.copy_with [] Option.none (some t)

/-- The elementwise application loop of `zipconv`'s converter: apply the
i-th function to the i-th element, stopping at the shorter of the two
lists; `Option.none` entries are no-ops. -/
def zipApply : List (Option (PResult → PResult)) → List PResult → List PResult
  | _, [] => []
  | [], rs => rs
  | f :: fs, r :: rs =>
      (match f with | some fn => fn r | Option.none => r) :: zipApply fs rs

/-- The `elem_converter` closure of `zipconv`: elementwise conversion of
a tuple or list result; any other shape raises a TypeError. -/
def elemConverter (fns : List (Option (PResult → PResult))) : Conv := fun r =>
  match r with
  | .tup rs => .val (.tup (zipApply fns rs))
  | .list rs => .val (.list (zipApply fns rs))
  | _ => .raisedR

/-- `Parser.zipconv(*fns)`. -/
def Parser.zipconv (p : Parser) (fns : List (Option (PResult → PResult))) : Parser :=
  if fns.all (fun f => f.isNone) then p
  else p.copy_with [elemConverter fns] Option.none Option.none

/-- The flattening test of `_ParserList.__init__` when the list under
construction is a `_ParserChain`: a child is spliced exactly when it is
itself a (non-finalized) `_ParserChain` instance. -/
def flatC : Parser → List Parser
  | .rawChain ps => ps
  | p => [p]

/-- The flattening test when constructing a `_ParserFirstMatch`. -/
def flatF : Parser → List Parser
  | .rawFirst ps => ps
  | p => [p]

/-- `_ParserChain(*parsers)`. -/
def chainOf (parsers : List Parser) : Parser :=
  .rawChain (parsers.flatMap flatC)

/-- `_ParserFirstMatch(*parsers)`. -/
def firstOf (parsers : List Parser) : Parser :=
  .rawFirst (parsers.flatMap flatF)

/-- `Parser.__add__`. -/
def pAdd (a b : Parser) : Parser := chainOf [a, b]

/-- `Parser.__or__`. -/
def pOr (a b : Parser) : Parser := firstOf [a, b]

/-- The parse function of `ex(z)`: `s.startswith(z, i)`, result `None`. -/
def exFn (z : List Char) (s : List Char) (i : Nat) : RunOut :=
  if i ≤ s.length ∧ (s.drop i).take z.length = z then .ok .none (i + z.length) else .fail

/-- `ex(z)`: exact-string parser, with whitespace trimming enabled. -/
def ex (z : List Char) : Parser :=
  .base (.fnP (exFn z)) [] true Option.none

/-- What `re.compile(z).match(s, i)` exposes of a successful match: the
named-group dict `groupdict()`, the group tuple `groups()`, the matched
text `group(0)`, and `end()`. -/
structure ReMatch where
  gdict : List (List Char × PResult)
  groups : List PResult
  whole : List Char
  endPos : Nat
  deriving DecidableEq

/-- An anchored regex-matching function, abstracting the `re` module:
the behavior of `patt.match(s, i)` for one compiled pattern. -/
abbrev RegexMatcher := List Char → Nat → Option ReMatch

/-- The parse function built by `regex(z)`: dispatch on the shape of the
match's capture groups — named groups win, then two-or-more groups as a
tuple, then a single group's value, then the whole matched text. -/
def regexFn (m : RegexMatcher) (s : List Char) (i : Nat) : RunOut :=
  match m s i with
  | Option.none => .fail
  | some mt =>
    if mt.gdict ≠ [] then .ok (.dict mt.gdict) mt.endPos
    else if 1 < mt.groups.length then .ok (.tup mt.groups) mt.endPos
    else if mt.groups.length = 1 then .ok (mt.groups.headD (.str mt.whole)) mt.endPos
    else .ok (.str mt.whole) mt.endPos

/-- `regex(z)` for a compiled pattern abstracted as `m`, with whitespace
trimming enabled. -/
def regexP (m : RegexMatcher) : Parser :=
  .base (.fnP (regexFn m)) [] true Option.none

/-- Modelled from the environment: the maximal run of decimal digits at
the head of a list, as matched by the regex `[0-9]+`. -/
def digitRun : List Char → List Char
  | [] => []
  | c :: cs => if c.isDigit then c :: digitRun cs else []

/-- Modelled from the environment: `re.compile("[0-9]+").match(s, i)` —
the pattern has no capture groups, matches greedily, and fails when no
digit is present at `i`. -/
def digitsMatcher : RegexMatcher := fun s i =>
  let r := digitRun (s.drop i)
  if r = [] then Option.none else some ⟨[], [], r, i + r.length⟩

/-- The parse function of `chomp(n)`: take exactly `n` characters. -/
def chompFn (n : Nat) (s : List Char) (i : Nat) : RunOut :=
  if i + n ≤ s.length then .ok (.str ((s.drop i).take n)) (i + n) else .fail

/-- `chomp(n)` (no whitespace trimming). -/
def chomp (n : Nat) : Parser :=
  .base (.fnP (chompFn n)) [] false Option.none

/-- The `while` guard of `star`'s loop:
`(at_most is None) or (rep_count < at_most)`. -/
def atMostOk (at_most : Option Nat) (reps : Nat) : Bool :=
  match at_most with
  | Option.none => true
  | some m => decide (reps < m)

/-- Outcome of `star`'s repetition loop: normal exit with the
accumulated results, the final position and the repetition count;
`fuelOut` when the fuel ran out (modelling a loop that never exits);
or a propagating exception from the repeated parser. -/
inductive StarOut where
  | done (rs : List PResult) (i : Nat) (reps : Nat)
  | fuelOut
  | raisedS
  deriving DecidableEq

/-- The repetition loop of `star`: while the upper bound allows, run
`p`; a failure exits the loop, a success accumulates via `_add_result`
and advances.  The Python loop has no fuel; fuel exhaustion is the
distinguished outcome `fuelOut`. -/
def starLoop (p : Parser) (at_most : Option Nat) (s : List Char) :
    Nat → Nat → Nat → List PResult → StarOut
  | 0, i, reps, rs =>
    if atMostOk at_most reps then .fuelOut else .done rs i reps
  | fuel2 + 1, i, reps, rs =>
    if atMostOk at_most reps then
      match p.run s i with
      | .fail => .done rs i reps
      | .raised => .raisedS
      | .ok r ni => starLoop p at_most s fuel2 ni (reps + 1) (addResult rs r)
    else .done rs i reps

/-- The parse function built by `star`: run the loop, then fail if
fewer than `at_least` repetitions succeeded, else return the list. -/
def starFn (p : Parser) (at_least : Nat) (at_most : Option Nat) (fuel : Nat)
    (s : List Char) (i : Nat) : RunOut :=
  match starLoop p at_most s fuel i 0 [] with
  | .fuelOut => .fail
  | .raisedS => .raised
  | .done rs j reps => if reps < at_least then .fail else .ok (.list rs) j

/-- `star(p, at_least, at_most)` (fuel made explicit; named `starP` because
Mathlib already exports a root-level `star`). -/
def starP (p : Parser) (at_least : Nat) (at_most : Option Nat) (fuel : Nat) : Parser :=
  .base (.fnP (starFn p at_least at_most fuel)) [] false Option.none

/-- `seplist(p, sep)` for a `sep` that is already a Parser:
`p + star(sep.skip() + p)`. -/
def seplist (p : Parser) (sep : Parser) (fuel : Nat) : Parser :=
  pAdd p (starP (pAdd (Parser.skip sep) p) 0 Option.none fuel)

/-- `seplist(p, sep)` for a string separator: the source wraps it with
`ex(sep)` first. -/
def seplistStr (p : Parser) (z : List Char) (fuel : Nat) : Parser :=
  seplist p (ex z) fuel

/-- Outcome of `ParserRef.run_ref`: a parse outcome, or the
AttributeError raised by reading the unset `_ref` slot. -/
inductive RefRun where
  | out (o : RunOut)
  | attrError

/-- `ParserRef.set_ref`: a plain assignment to the `_ref` slot.  The
slot state is `Option Parser` (`Option.none` while unbound);
assignment always succeeds and overwrites whatever was there. -/
def setRef (_st : Option Parser) (p : Parser) : Option Parser :=
  some p

/-- `ParserRef.run_ref(s, i)`: delegate to the bound target; reading the
slot of an unbound reference raises AttributeError (a loud failure
distinct from the parse-failure return `None`). -/
def runRef (st : Option Parser) (s : List Char) (i : Nat) : RefRun :=
  match st with
  | Option.none => .attrError
  | some p => .out (p.run s i)

/-- Running a conversion pipeline split in two: the second half runs on
the first half's output; failure or an exception cuts it short. -/
theorem applyConvs_append (cs ds : List Conv) (r : PResult) :
    applyConvs (cs ++ ds) r =
      match applyConvs cs r with
      | .okC r2 => applyConvs ds r2
      | .failC => .failC
      | .raisedC => .raisedC := by
  induction cs generalizing r with
  | nil => simp [applyConvs]
  | cons f fs ih =>
    simp only [List.cons_append, applyConvs]
    cases h : f r with
    | skipR => simp [ih]
    | raisedR => simp
    | val r2 => cases r2 <;> simp [ih]

/-- The chain loop over a split child list: the second half resumes at
the position and accumulator the first half reached. -/
theorem runChain_append (xs ys : List Parser) (s : List Char) (i : Nat) (acc : List PResult) :
    runChain (xs ++ ys) s i acc =
      match runChain xs s i acc with
      | .okL rs j => runChain ys s j rs
      | .failL => .failL
      | .raisedL => .raisedL := by
  induction xs generalizing i acc with
  | nil => simp [runChain]
  | cons p ps ih =>
    simp only [List.cons_append, runChain]
    cases Parser.run p s i <;> simp [ih]

/-- An empty pipeline with default settings post-processes nothing. -/
theorem pipeOut_nil (out : RunOut) (s : List Char) :
    pipeOut out [] false Option.none s = out := by
  cases out <;> simp [pipeOut, applyConvs, tagWrap]

/-- Every parser's `run` is its primitive function followed by its
pipeline; for the fresh composites the pipeline is the default one. -/
theorem run_eq_pipe (p : Parser) (s : List Char) (i : Nat) :
    p.run s i =
      pipeOut (runPrim p.primOf s (if p.trimOf then skipWS s i else i))
        p.convsOf p.trimOf p.tagOf s := by
  cases p with
  | base prim cs tr tg =>
    simp [Parser.run, Parser.primOf, Parser.convsOf, Parser.trimOf, Parser.tagOf]
  | rawChain ps =>
    simp [Parser.run, runPrim, Parser.primOf, Parser.convsOf, Parser.trimOf, Parser.tagOf,
      pipeOut_nil]
  | rawFirst ps =>
    simp [Parser.run, runPrim, Parser.primOf, Parser.convsOf, Parser.trimOf, Parser.tagOf,
      pipeOut_nil]

/-- Running a `_copy_with` result: same primitive function, merged
pipeline. -/
theorem run_copy_with (p : Parser) (nc : List Conv) (nt : Option Bool)
    (ng : Option (Option PResult)) (s : List Char) (i : Nat) :
    (p.copy_with nc nt ng).run s i =
      pipeOut (runPrim p.primOf s (if nt.getD p.trimOf then skipWS s i else i))
        (p.convsOf ++ nc) (nt.getD p.trimOf) (ng.getD p.tagOf) s := by
  simp [Parser.copy_with, Parser.run]

/-- The `const` conversion maps anything to its fixed value; for a
non-`None` value the singleton pipeline succeeds with it. -/
theorem applyConvs_constConv (v : PResult) (hv : v ≠ PResult.none) (r : PResult) :
    applyConvs [constConv v] r = .okC v := by
  cases v with
  | none => exact absurd rfl hv
  | str a => rfl
  | intv a => rfl
  | list a => rfl
  | tup a => rfl
  | dict a => rfl
  | tagged a b => rfl

/-- Appending the `const` conversion replaces a successful pipeline's
result with the fixed (non-`None`) value. -/
theorem pipeOut_const (out : RunOut) (cs : List Conv) (tr : Bool) (tg : Option PResult)
    (s : List Char) (v : PResult) (hv : v ≠ PResult.none) :
    pipeOut out (cs ++ [constConv v]) tr tg s =
      match pipeOut out cs tr tg s with
      | .ok _ j => .ok (tagWrap tg v) j
      | e => e := by
  cases out with
  | fail => simp [pipeOut]
  | raised => simp [pipeOut]
  | ok r j =>
    simp only [pipeOut, applyConvs_append]
    cases applyConvs cs r with
    | okC r2 => simp [applyConvs_constConv v hv r2]
    | failC => simp
    | raisedC => simp

/-- Claim C1: for all parsers a, b, c, composing with `+` (sequence) or
`|` (alternation) left-nested, right-nested, or as one flat three-way
call yields literally the same Parser value — the flattening performed
by `_ParserList.__init__` is associative — and hence the same `run`
outcome (same result list and end position) on every input and start
position. -/
theorem flattening_unobservable (a b c : Parser) :
    (pAdd (pAdd a b) c = chainOf [a, b, c] ∧
     pAdd a (pAdd b c) = chainOf [a, b, c] ∧
     pOr (pOr a b) c = firstOf [a, b, c] ∧
     pOr a (pOr b c) = firstOf [a, b, c]) ∧
    (∀ (s : List Char) (i : Nat),
      (pAdd (pAdd a b) c).run s i = (chainOf [a, b, c]).run s i ∧
      (pAdd a (pAdd b c)).run s i = (chainOf [a, b, c]).run s i ∧
      (pOr (pOr a b) c).run s i = (firstOf [a, b, c]).run s i ∧
      (pOr a (pOr b c)).run s i = (firstOf [a, b, c]).run s i) := by
  have h1 : pAdd (pAdd a b) c = chainOf [a, b, c] := by
    simp [pAdd, chainOf, flatC, List.append_assoc]
  have h2 : pAdd a (pAdd b c) = chainOf [a, b, c] := by
    simp [pAdd, chainOf, flatC, List.append_assoc]
  have h3 : pOr (pOr a b) c = firstOf [a, b, c] := by
    simp [pOr, firstOf, flatF, List.append_assoc]
  have h4 : pOr a (pOr b c) = firstOf [a, b, c] := by
    simp [pOr, firstOf, flatF, List.append_assoc]
  exact ⟨⟨h1, h2, h3, h4⟩, fun s i => ⟨by rw [h1], by rw [h2], by rw [h3], by rw [h4]⟩⟩

/-- Claim C2: `parse` returns a result exactly when `run` from position
0 succeeds with end position equal to the input length; a failing run,
or a run that stops anywhere else (even a matching proper prefix),
yields no result; on success `parse` returns the result component. -/
theorem parse_full_consumption (p : Parser) (s : List Char) :
    (∀ r, p.parse s = POut.res r ↔ p.run s 0 = RunOut.ok r s.length) ∧
    (p.parse s = POut.noRes ↔
      (p.run s 0 = RunOut.fail ∨
       ∃ r j, p.run s 0 = RunOut.ok r j ∧ j ≠ s.length)) := by
  cases h : p.run s 0 with
  | fail => simp [Parser.parse, h]
  | raised => simp [Parser.parse, h]
  | ok r j =>
    by_cases hj : j = s.length
    · subst hj
      simp [Parser.parse, h]
    · simp [Parser.parse, h, hj]
      exact ⟨r, j, ⟨rfl, rfl⟩, hj⟩

/-- Claim C3: alternation runs its children left to right, all at the
same start position; the first success is returned without trying any
later child (the trailing children are universally quantified, so they
cannot influence the outcome); the alternation fails exactly when every
child fails.  The final conjunct is the first-match-not-longest-match
scenario: a 1-character child beats a 2-character child on the same
input. -/
theorem alternation_first_match :
    (∀ (ps : List Parser) (s : List Char) (i : Nat),
      Parser.run (.rawFirst ps) s i = runFirst ps s i) ∧
    (∀ (ps : List Parser) (s : List Char) (i : Nat),
      (runFirst ps s i = RunOut.fail ↔ ∀ p ∈ ps, p.run s i = RunOut.fail)) ∧
    (∀ (ps qs : List Parser) (p : Parser) (s : List Char) (i : Nat) (r : PResult) (j : Nat),
      (∀ q ∈ ps, q.run s i = RunOut.fail) → p.run s i = RunOut.ok r j →
      runFirst (ps ++ p :: qs) s i = RunOut.ok r j) ∧
    ((pOr (chomp 1) (chomp 2)).run ['a', 'b'] 0 = RunOut.ok (PResult.str ['a']) 1) := by
  refine ⟨fun ps s i => rfl, ?_, ?_, by decide⟩
  · intro ps s i
    induction ps with
    | nil => simp [runFirst]
    | cons p ps ih =>
      simp only [runFirst, List.mem_cons]
      cases h : p.run s i with
      | fail => simp [h, ih]
      | raised =>
        simp only []
        constructor
        · intro hh
          exact absurd hh (by simp)
        · intro hh
          exact absurd (hh p (Or.inl rfl)) (by simp [h])
      | ok r j =>
        simp only []
        constructor
        · intro hh
          exact absurd hh (by simp)
        · intro hh
          exact absurd (hh p (Or.inl rfl)) (by simp [h])
  · intro ps qs p s i r j hfail hok
    induction ps with
    | nil => simp [runFirst, hok]
    | cons q ps ih =>
      have hq : q.run s i = RunOut.fail := hfail q (by simp)
      simp only [List.cons_append, runFirst, hq]
      exact ih (fun q2 hq2 => hfail q2 (by simp [hq2]))

/-- Claim C3 witness: a concrete application of the first-success
conjunct — with a failing child in front, the first succeeding child's
result is returned unchanged. -/
theorem alternation_first_match_witness :
    runFirst [chomp 5, chomp 1, chomp 2] ['a', 'b'] 0 = RunOut.ok (PResult.str ['a']) 1 := by
  have h := alternation_first_match.2.2.1 [chomp 5] [chomp 2] (chomp 1) ['a', 'b'] 0
    (PResult.str ['a']) 1
  exact h (by intro q hq; rw [List.mem_singleton] at hq; subst hq; decide) (by decide)

/-- Claim C4: given that `star`'s repetition loop exits normally (the
`done` hypothesis records the accumulated results, final position and
repetition count the Python loop would reach), the star parser fails
exactly when the repetition count is below `at_least`; a failure
returns the bare no-result value, committing no position.  With
`at_least = 0` and a parser that fails immediately, the star parser
succeeds with the empty list at the unchanged start position. -/
theorem star_at_least_fail (p : Parser) (at_least : Nat) (at_most : Option Nat) (fuel : Nat)
    (s : List Char) (i : Nat) (rs : List PResult) (j reps : Nat)
    (h : starLoop p at_most s fuel i 0 [] = StarOut.done rs j reps) :
    ((starP p at_least at_most fuel).run s i = RunOut.fail ↔ reps < at_least) ∧
    (p.run s i = RunOut.fail → 0 < fuel →
      (starP p 0 at_most fuel).run s i = RunOut.ok (PResult.list []) i) := by
  constructor
  · have hrun : (starP p at_least at_most fuel).run s i = starFn p at_least at_most fuel s i := by
      simp [starP, Parser.run, runPrim, pipeOut_nil]
    rw [hrun]
    unfold starFn
    rw [h]
    by_cases hlt : reps < at_least
    · simp [hlt]
    · simp [hlt]
  · intro hp hfuel
    have hloop : starLoop p at_most s fuel i 0 [] = StarOut.done [] i 0 := by
      obtain ⟨f, rfl⟩ : ∃ f, fuel = f + 1 := ⟨fuel - 1, by omega⟩
      cases hok : atMostOk at_most 0 with
      | false => simp [starLoop, hok]
      | true => simp [starLoop, hok, hp]
    have hrun : (starP p 0 at_most fuel).run s i = starFn p 0 at_most fuel s i := by
      simp [starP, Parser.run, runPrim, pipeOut_nil]
    rw [hrun]
    unfold starFn
    rw [hloop]
    simp

/-- Claim C4 witness: `star(chomp(1), at_least=2)` fails on the
1-character input `"a"` (only one repetition succeeds), and
`star(chomp(1), at_least=0)` succeeds with the empty list at the start
position on input where `chomp(1)` immediately fails. -/
theorem star_at_least_fail_witness :
    (starP (chomp 1) 2 Option.none 3).run ['a'] 0 = RunOut.fail ∧
    (starP (chomp 1) 0 Option.none 3).run [] 0 = RunOut.ok (PResult.list []) 0 := by
  constructor
  · exact ((star_at_least_fail (chomp 1) 2 Option.none 3 ['a'] 0 [PResult.str ['a']] 1 1
      (by decide)).1).mpr (by decide)
  · exact (star_at_least_fail (chomp 1) 0 Option.none 3 [] 0 [] 0 0 (by decide)).2
      (by decide) (by decide)

/-- Claim C9: if the repeated parser succeeds at a position without
advancing (end position equal to the start), the unbounded
(`at_most=None`) repetition loop never exits, whatever the fuel — the
Python `while` loop diverges, since it only stops on failure or on the
upper bound; with a finite `at_most = m`, the loop always exits once
the fuel exceeds the remaining allowed repetitions, so the run always
terminates. -/
theorem star_unbounded_nonterminating :
    (∀ (p : Parser) (s : List Char) (i : Nat) (r : PResult),
      p.run s i = RunOut.ok r i →
      ∀ (fuel reps : Nat) (rs : List PResult),
        starLoop p Option.none s fuel i reps rs = StarOut.fuelOut) ∧
    (∀ (p : Parser) (m : Nat) (s : List Char) (i : Nat) (fuel reps : Nat) (rs : List PResult),
      m < reps + fuel →
      starLoop p (some m) s fuel i reps rs ≠ StarOut.fuelOut) := by
  constructor
  · intro p s i r hp fuel
    induction fuel with
    | zero => intro reps rs; simp [starLoop, atMostOk]
    | succ f ih =>
      intro reps rs
      simp [starLoop, atMostOk, hp]
      exact ih (reps + 1) (addResult rs r)
  · intro p m s i fuel
    induction fuel generalizing i with
    | zero =>
      intro reps rs hlt
      have hge : ¬ reps < m := by omega
      simp [starLoop, atMostOk, hge]
    | succ f ih =>
      intro reps rs hlt
      by_cases hm : reps < m
      · have hok : atMostOk (some m) reps = true := by simp [atMostOk, hm]
        cases hrun : p.run s i with
        | fail => simp [starLoop, hok, hrun]
        | raised => simp [starLoop, hok, hrun]
        | ok r ni =>
          simp [starLoop, hok, hrun]
          exact ih ni (reps + 1) (addResult rs r) (by omega)
      · have hok : atMostOk (some m) reps = false := by simp [atMostOk, hm]
        simp [starLoop, hok]

/-- Claim C9 witness: `ex("")` succeeds without consuming input, and the
unbounded repetition loop over it exhausts any fuel (here 7); with the
finite bound `at_most=2` the loop exits within fuel 3. -/
theorem star_unbounded_nonterminating_witness :
    starLoop (ex []) Option.none ['a'] 7 0 0 [] = StarOut.fuelOut ∧
    starLoop (chomp 1) (some 2) ['a'] 3 0 0 [] ≠ StarOut.fuelOut := by
  constructor
  · exact star_unbounded_nonterminating.1 (ex []) ['a'] 0 PResult.none (by decide) 7 0 []
  · exact star_unbounded_nonterminating.2 (chomp 1) 2 ['a'] 0 3 0 [] (by decide)

/-- Claim C5 counterexample: binding an already-bound forward reference
does not raise — `set_ref` is a plain slot assignment, so a second bind
silently replaces the referent, and the reference thereafter behaves as
the second parser. -/
theorem set_ref_rebind_counterexample :
    setRef (setRef Option.none (chomp 1)) (chomp 2) = some (chomp 2) ∧
    runRef (setRef (setRef Option.none (chomp 1)) (chomp 2)) ['a'] 0 =
      RefRun.out ((chomp 2).run ['a'] 0) :=
  ⟨rfl, rfl⟩

/-- Claim C5 (amended): `set_ref` always succeeds and overwrites the
slot — rebinding is silent, with the latest parser winning; only using
a reference before it is bound fails loudly (AttributeError), while a
bound reference delegates to its target. -/
theorem set_ref_silent_rebind :
    (∀ (st : Option Parser) (p : Parser), setRef st p = some p) ∧
    (∀ (s : List Char) (i : Nat), runRef Option.none s i = RefRun.attrError) ∧
    (∀ (p : Parser) (s : List Char) (i : Nat), runRef (some p) s i = RefRun.out (p.run s i)) :=
  ⟨fun _ _ => rfl, fun _ _ => rfl, fun _ _ _ => rfl⟩

/-- Claim C6 counterexample: `const(None)` is not an unconditional
replacement — a conversion returning `None` signals parse failure, so
`p.const(None)` fails even where `p` succeeds. -/
theorem const_none_counterexample :
    (chomp 1).run ['a'] 0 = RunOut.ok (PResult.str ['a']) 1 ∧
    ((chomp 1).const PResult.none).run ['a'] 0 = RunOut.fail := by
  decide

/-- Claim C6 (amended): for every value `v` other than `None`,
`p.const(v)` succeeds exactly when `p` succeeds, replacing the result
unconditionally with `v` (wrapped by `p`'s tag if one is set) at the
same end position; failures and exceptions pass through unchanged. -/
theorem const_replaces_result (p : Parser) (v : PResult) (s : List Char) (i : Nat)
    (hv : v ≠ PResult.none) :
    (p.const v).run s i =
      match p.run s i with
      | RunOut.ok _ j => RunOut.ok (tagWrap p.tagOf v) j
      | e => e := by
  have h1 : (p.const v).run s i =
      pipeOut (runPrim p.primOf s (if p.trimOf then skipWS s i else i))
        (p.convsOf ++ [constConv v]) p.trimOf p.tagOf s := by
    simp [Parser.const, run_copy_with]
  rw [h1, pipeOut_const _ _ _ _ _ v hv, ← run_eq_pipe]

/-- Claim C6 witness: replacing `chomp(1)`'s result with the string
`"z"` succeeds at the same end position with the new value. -/
theorem const_replaces_result_witness :
    ((chomp 1).const (PResult.str ['z'])).run ['a'] 0 = RunOut.ok (PResult.str ['z']) 1 := by
  rw [const_replaces_result (chomp 1) (PResult.str ['z']) ['a'] 0
    (fun h => PResult.noConfusion h)]
  decide

/-- `_copy_with` shares the original's primitive parse function. -/
theorem primOf_copy_with (p : Parser) (nc : List Conv) (nt : Option Bool)
    (ng : Option (Option PResult)) : (p.copy_with nc nt ng).primOf = p.primOf :=
  rfl

/-- Claim C7: every pipeline operation — `conv`, `zipconv`, `const`,
`skip`, `trim_ws`, `tag` — returns a Parser sharing the original's
primitive parse function (either the original parser itself for the
no-op short-circuits, or a `_copy_with` copy).  In this pure embedding
values are immutable by construction, so the original parser's
conversion list, trim flag, tag and primitive function are untouched by
the operation, which is exactly the invariant the source maintains by
always copying. -/
theorem pipeline_ops_immutable (p : Parser) (fns : List Conv)
    (zfns : List (Option (PResult → PResult))) (v : PResult) (e : Bool) (t : Option PResult) :
    (p.conv fns).primOf = p.primOf ∧
    (p.zipconv zfns).primOf = p.primOf ∧
    (p.const v).primOf = p.primOf ∧
    (Parser.skip p).primOf = p.primOf ∧
    (p.trim_ws e).primOf = p.primOf ∧
    (Parser.tag p t).primOf = p.primOf := by
  refine ⟨?_, ?_, rfl, rfl, ?_, ?_⟩
  · unfold Parser.conv
    split
    · rfl
    · exact primOf_copy_with p fns Option.none Option.none
  · unfold Parser.zipconv
    split
    · rfl
    · exact primOf_copy_with p [elemConverter zfns] Option.none Option.none
  · unfold Parser.trim_ws
    split
    · rfl
    · exact primOf_copy_with p [] (some e) Option.none
  · unfold Parser.tag
    split
    · rfl
    · exact primOf_copy_with p [] Option.none (some t)

/-- Claim C8: `seplist(p, sep)` requires at least one item — when the
item parser fails at the start position the whole separated list fails
(the leading `p` of `p + star(sep.skip() + p)` is mandatory); the
separator is wrapped with `skip()`, whose successful result is always
`None`, and `_add_result` drops `None`, so separator results never
appear in the result list.  The final conjunct is the concrete
scenario: digits separated by commas on `"1,2,3"` parse to the list
`["1", "2", "3"]`. -/
theorem seplist_requires_item :
    (∀ (p sep : Parser) (fuel : Nat) (s : List Char) (i : Nat),
      p.run s i = RunOut.fail → (seplist p sep fuel).run s i = RunOut.fail) ∧
    (∀ (sep : Parser) (s : List Char) (i : Nat) (r : PResult) (j : Nat),
      (Parser.skip sep).run s i = RunOut.ok r j → r = PResult.none) ∧
    (∀ (acc : List PResult), addResult acc PResult.none = acc) ∧
    ((seplistStr (regexP digitsMatcher) [','] 10).parse ['1', ',', '2', ',', '3'] =
      POut.res (PResult.list [PResult.str ['1'], PResult.str ['2'], PResult.str ['3']])) := by
  refine ⟨?_, ?_, fun acc => rfl, by decide⟩
  · intro p sep fuel s i hp
    have hsep : seplist p sep fuel =
        Parser.rawChain (flatC p ++ [starP (pAdd (Parser.skip sep) p) 0 Option.none fuel]) := by
      simp [seplist, pAdd, chainOf, flatC, starP]
    cases p with
    | base prim cs tr tg =>
      rw [hsep]
      simp only [flatC, List.singleton_append, Parser.run, runChain]
      simp only [Parser.run] at hp
      rw [hp]
      simp [listOut]
    | rawFirst ps =>
      rw [hsep]
      simp only [flatC, List.singleton_append, Parser.run, runChain]
      simp only [Parser.run] at hp
      rw [hp]
      simp [listOut]
    | rawChain ps =>
      simp only [Parser.run] at hp
      have hps : runChain ps s i [] = LOut.failL := by
        cases hr : runChain ps s i [] with
        | okL rs jj => rw [hr] at hp; exact absurd hp (by simp [listOut])
        | failL => rfl
        | raisedL => rw [hr] at hp; exact absurd hp (by simp [listOut])
      rw [hsep]
      simp only [flatC, Parser.run]
      rw [runChain_append, hps]
      rfl
  · intro sep s i r j h
    have h2 : pipeOut (runPrim sep.primOf s (if sep.trimOf then skipWS s i else i))
        (sep.convsOf ++ [skipConv]) sep.trimOf Option.none s = RunOut.ok r j := by
      simpa [Parser.skip, run_copy_with] using h
    cases hout : runPrim sep.primOf s (if sep.trimOf then skipWS s i else i) with
    | fail => rw [hout] at h2; exact absurd h2 (by simp [pipeOut])
    | raised => rw [hout] at h2; exact absurd h2 (by simp [pipeOut])
    | ok r0 j0 =>
      rw [hout] at h2
      simp only [pipeOut, applyConvs_append] at h2
      cases hc : applyConvs sep.convsOf r0 with
      | okC r2 =>
        rw [hc] at h2
        simp [applyConvs, skipConv, tagWrap] at h2
        exact h2.1.symm
      | failC => rw [hc] at h2; exact absurd h2 (by simp)
      | raisedC => rw [hc] at h2; exact absurd h2 (by simp)

/-- Claim C8 witness: the item parser (a digit regex) fails on `"x"`,
so the separated list fails there; and the skip-result conjunct applied
to the comma separator on `","` yields the `None` result. -/
theorem seplist_requires_item_witness :
    (seplist (regexP digitsMatcher) (ex [',']) 10).run ['x'] 0 = RunOut.fail ∧
    PResult.none = PResult.none := by
  constructor
  · exact seplist_requires_item.1 (regexP digitsMatcher) (ex [',']) 10 ['x'] 0 (by decide)
  · exact seplist_requires_item.2.1 (ex [',']) [','] 0 PResult.none 1 (by decide)

/-- Claim C10: in `regex`'s result dispatch, a non-empty named-group
dict wins — the result is exactly the mapping from group names to
captured values, whatever unnamed groups the same pattern also has; the
tuple, single-value and whole-match shapes are only reachable when the
pattern has no named group.  The second conjunct states the same for
the full parser (`regex` enables whitespace trimming, hence the
`skipWS` adjustments around the matcher). -/
theorem regex_named_groups_win :
    (∀ (m : RegexMatcher) (s : List Char) (i : Nat) (mt : ReMatch),
      m s i = some mt → mt.gdict ≠ [] →
      regexFn m s i = RunOut.ok (PResult.dict mt.gdict) mt.endPos) ∧
    (∀ (m : RegexMatcher) (s : List Char) (i : Nat) (mt : ReMatch),
      m s (skipWS s i) = some mt → mt.gdict ≠ [] →
      (regexP m).run s i = RunOut.ok (PResult.dict mt.gdict) (skipWS s mt.endPos)) := by
  constructor
  · intro m s i mt hm hg
    simp [regexFn, hm, hg]
  · intro m s i mt hm hg
    have h1 : (regexP m).run s i = pipeOut (regexFn m s (skipWS s i)) [] true Option.none s := by
      simp [regexP, Parser.run, runPrim]
    rw [h1]
    rw [show regexFn m s (skipWS s i) = RunOut.ok (PResult.dict mt.gdict) mt.endPos from by
      simp [regexFn, hm, hg]]
    simp [pipeOut, applyConvs, tagWrap]

/-- A matcher with one named group and two positional groups overall,
behaving as `re.compile("(?P<k>a)(b)").match` does on the input `"ab"`
(a named group is also counted among the positional groups). -/
def namedM : RegexMatcher := fun s i =>
  if s = ['a', 'b'] ∧ i = 0 then
    some ⟨[(['k'], PResult.str ['a'])], [PResult.str ['a'], PResult.str ['b']], ['a', 'b'], 2⟩
  else Option.none

/-- Claim C10 witness: on that matcher the parser returns only the
named-group mapping, discarding the positional-group tuple. -/
theorem regex_named_groups_win_witness :
    (regexP namedM).run ['a', 'b'] 0 =
      RunOut.ok (PResult.dict [(['k'], PResult.str ['a'])]) 2 := by
  rw [regex_named_groups_win.2 namedM ['a', 'b'] 0
    ⟨[(['k'], PResult.str ['a'])], [PResult.str ['a'], PResult.str ['b']], ['a', 'b'], 2⟩
    (by decide) (by decide)]
  decide
